import Mathlib

/-!
Shallow embedding of the taskt terminal task manager (src/main.rs, with the
module variant src/todo.rs agreeing on every function modelled here) and
proofs about its task store, persistence and input-mode machine.

The persisted file is modelled as `FS := Option String` (`none` = the file
does not exist).  `serde_json::to_string::<Vec<Task>>` and
`serde_json::from_str::<Vec<Task>>` are modelled by an executable encoder
and recursive-descent parser over the JSON grammar actually used by that
schema (compact objects with the fields `text` and `completed`).
-/

namespace Taskt

/-- The UI mode (`enum Mode` in main.rs). -/
inductive Mode
  | Normal
  | Insert
  | Delete
  deriving DecidableEq, Repr

/-- A single to-do item (`struct Task` in main.rs). -/
structure Task where
  text : String
  completed : Bool
  deriving DecidableEq, Repr

/-- Model of `Task::new`: a fresh task is not completed. -/
def Task.new (text : String) : Task := { text := text, completed := false }

/-- The application state (`struct Todo` in main.rs). -/
structure Todo where
  tasks : List Task
  new_task_text : String
  mode : Mode
  current_task : Nat
  deriving DecidableEq, Repr

/-- The persisted db.json file: `none` means the file does not exist. -/
abbrev FS := Option String

/-- Machine `usize` arithmetic is modelled modulo `2 ^ 64`. -/
def USIZE : Nat := 2 ^ 64

/-! ## JSON serialization (model of serde_json on `Vec<Task>`) -/

/-- Lowercase hex digit, as emitted by serde_json for `\u00XX` escapes. -/
def hexDigitChar (n : Nat) : Char :=
  if n < 10 then Char.ofNat (48 + n) else Char.ofNat (87 + n)

/-- serde_json's string escaping: `"`, `\`, the named control escapes
`\b \t \n \f \r`, and `\u00XX` for the remaining control characters;
every other character is emitted verbatim. -/
def escapeChar (c : Char) : List Char :=
  if c = '\"' then ['\\', '\"']
  else if c = '\\' then ['\\', '\\']
  else if c = '\x08' then ['\\', 'b']
  else if c = '\t' then ['\\', 't']
  else if c = '\n' then ['\\', 'n']
  else if c = '\x0c' then ['\\', 'f']
  else if c = '\r' then ['\\', 'r']
  else if c.toNat < 32 then
    ['\\', 'u', '0', '0', hexDigitChar (c.toNat / 16), hexDigitChar (c.toNat % 16)]
  else [c]

/-- Escape a whole string body. -/
def escapeList : List Char → List Char
  | [] => []
  | c :: cs => escapeChar c ++ escapeList cs

/-- A JSON string literal: quote, escaped body, quote. -/
def encodeString (s : String) : List Char := '\"' :: (escapeList s.data ++ ['\"'])

/-- One task as the compact JSON object
`\x7b"text":<string>,"completed":<bool>\x7d` (serde_json field order). -/
def encodeTask (t : Task) : List Char :=
  '\x7b' :: '\"' :: 't' :: 'e' :: 'x' :: 't' :: '\"' :: ':' ::
    (encodeString t.text ++
      ',' :: '\"' :: 'c' :: 'o' :: 'm' :: 'p' :: 'l' :: 'e' :: 't' :: 'e' :: 'd' :: '\"' :: ':' ::
        ((if t.completed
            then 't' :: 'r' :: 'u' :: 'e' :: []
            else 'f' :: 'a' :: 'l' :: 's' :: 'e' :: []) ++
          '\x7d' :: []))

/-- Comma-separated continuation of a JSON array body. -/
def encodeSep : List Task → List Char
  | [] => []
  | t :: ts => ',' :: (encodeTask t ++ encodeSep ts)

/-- The items of a JSON array, comma separated. -/
def encodeItems : List Task → List Char
  | [] => []
  | t :: ts => encodeTask t ++ encodeSep ts

/-- Model of `serde_json::to_string::<Vec<Task>>`: a compact JSON array. -/
def jsonEncodeTasks (ts : List Task) : String :=
  String.mk ('[' :: (encodeItems ts ++ [']']))

/-- JSON whitespace. -/
def isJsonWs (c : Char) : Bool := c = ' ' || c = '\t' || c = '\n' || c = '\r'

/-- Skip leading JSON whitespace. -/
def skipWs : List Char → List Char
  | [] => []
  | c :: cs => if isJsonWs c then skipWs cs else c :: cs

/-- One hex digit of a `\uXXXX` escape. -/
def parseHexDigit (c : Char) : Option Nat :=
  if '0' ≤ c ∧ c ≤ '9' then some (c.toNat - 48)
  else if 'a' ≤ c ∧ c ≤ 'f' then some (c.toNat - 87)
  else if 'A' ≤ c ∧ c ≤ 'F' then some (c.toNat - 55)
  else none

/-- Four hex digits of a `\uXXXX` escape. -/
def hex4 (a b c d : Char) : Option Nat :=
  match parseHexDigit a, parseHexDigit b, parseHexDigit c, parseHexDigit d with
  | some ha, some hb, some hc, some hd => some (((ha * 16 + hb) * 16 + hc) * 16 + hd)
  | _, _, _, _ => none

/-- A `\uXXXX` escape (the input starts right after the `u`): a
non-surrogate scalar stands alone, a leading surrogate must be followed by
a second `\uXXXX` trailing surrogate and the pair is combined, and a lone
surrogate is rejected — as serde_json does. -/
def parseUnicode : List Char → Option (Char × List Char)
  | a :: b :: c :: d :: cs =>
    match hex4 a b c d with
    | none => none
    | some n =>
      if n < 0xD800 ∨ 0xE000 ≤ n then some (Char.ofNat n, cs)
      else if n < 0xDC00 then
        match cs with
        | e1 :: e2 :: a2 :: b2 :: c2 :: d2 :: cs2 =>
          if e1 = '\\' ∧ e2 = 'u' then
            match hex4 a2 b2 c2 d2 with
            | some m =>
              if 0xDC00 ≤ m ∧ m < 0xE000 then
                some (Char.ofNat (0x10000 + (n - 0xD800) * 1024 + (m - 0xDC00)), cs2)
              else none
            | none => none
          else none
        | _ => none
      else none
  | _ => none

/-- One escape sequence (the input starts right after the backslash). -/
def parseEscape : List Char → Option (Char × List Char)
  | [] => none
  | e :: cs =>
    if e = '\"' then some ('\"', cs)
    else if e = '\\' then some ('\\', cs)
    else if e = '/' then some ('/', cs)
    else if e = 'b' then some ('\x08', cs)
    else if e = 'f' then some ('\x0c', cs)
    else if e = 'n' then some ('\n', cs)
    else if e = 'r' then some ('\r', cs)
    else if e = 't' then some ('\t', cs)
    else if e = 'u' then parseUnicode cs
    else none

/-- Body of a JSON string literal, after the opening quote: returns the
decoded characters and the input remaining after the closing quote.
Unescaped control characters are rejected, exactly as serde_json does.
Every step consumes at least one input character, so the `fuel` used by
the wrapper `parseString` (input length + 1) never runs out before the
input does. -/
def parseStringBody : Nat → List Char → Option (List Char × List Char)
  | 0, _ => none
  | _ + 1, [] => none
  | fuel + 1, c :: cs =>
    if c = '\"' then some ([], cs)
    else if c = '\\' then
      match parseEscape cs with
      | some (d, cs2) => (parseStringBody fuel cs2).map (fun p => (d :: p.1, p.2))
      | none => none
    else if c.toNat < 32 then none
    else (parseStringBody fuel cs).map (fun p => (c :: p.1, p.2))

/-- A JSON string body with enough fuel for its own length. -/
def parseString (s : List Char) : Option (List Char × List Char) :=
  parseStringBody (s.length + 1) s

/-- Consume an expected literal keyword. -/
def expectLit : List Char → List Char → Option (List Char)
  | [], s => some s
  | _ :: _, [] => none
  | p :: ps, c :: cs => if c = p then expectLit ps cs else none

/-- One parsed field of a task object. -/
inductive FieldVal
  | text (s : List Char)
  | completed (b : Bool)
  deriving DecidableEq, Repr

/-- One `"key": value` pair of a task object.  The key must be `text`
(string value) or `completed` (`true`/`false`); serde_json with the
default derive additionally skips unknown keys, a case no theorem here
relies on. -/
def parseField (s : List Char) : Option (FieldVal × List Char) :=
  match skipWs s with
  | [] => none
  | c :: cs =>
    if c = '\"' then
      match parseString cs with
      | none => none
      | some (key, r1) =>
        match skipWs r1 with
        | [] => none
        | c2 :: cs2 =>
          if c2 = ':' then
            let v := skipWs cs2
            if key = ['t', 'e', 'x', 't'] then
              match v with
              | [] => none
              | c3 :: cs3 =>
                if c3 = '\"' then
                  match parseString cs3 with
                  | some (str, r2) => some (FieldVal.text str, r2)
                  | none => none
                else none
            else if key = ['c', 'o', 'm', 'p', 'l', 'e', 't', 'e', 'd'] then
              match expectLit ['t', 'r', 'u', 'e'] v with
              | some r2 => some (FieldVal.completed true, r2)
              | none =>
                match expectLit ['f', 'a', 'l', 's', 'e'] v with
                | some r2 => some (FieldVal.completed false, r2)
                | none => none
            else none
          else none
    else none

/-- Combine the two fields of a task object (either order, no duplicates,
both required — serde_json errors on a missing or duplicate field). -/
def mkTask : FieldVal → FieldVal → Option Task
  | FieldVal.text s, FieldVal.completed b => some { text := String.mk s, completed := b }
  | FieldVal.completed b, FieldVal.text s => some { text := String.mk s, completed := b }
  | _, _ => none

/-- One task object `\x7b ... \x7d` with exactly two fields. -/
def parseTask (s : List Char) : Option (Task × List Char) :=
  match skipWs s with
  | [] => none
  | c :: cs =>
    if c = '\x7b' then
      match parseField cs with
      | none => none
      | some (f1, r1) =>
        match skipWs r1 with
        | [] => none
        | c2 :: cs2 =>
          if c2 = ',' then
            match parseField cs2 with
            | none => none
            | some (f2, r2) =>
              match skipWs r2 with
              | [] => none
              | c3 :: cs3 =>
                if c3 = '\x7d' then
                  match mkTask f1 f2 with
                  | some t => some (t, cs3)
                  | none => none
                else none
          else none
    else none

/-- Remaining elements of the task array after the first one: repeatedly a
comma and a task, then the closing bracket and (only) trailing whitespace.
`fuel` bounds the number of elements; each step consumes at least the
comma, so any fuel above the input length is enough. -/
def parseTasksAux : Nat → List Task → List Char → Option (List Task)
  | 0, _, _ => none
  | fuel + 1, acc, s =>
    match skipWs s with
    | [] => none
    | c :: cs =>
      if c = ']' then
        match skipWs cs with
        | [] => some acc
        | _ :: _ => none
      else if c = ',' then
        match parseTask cs with
        | some (t, r) => parseTasksAux fuel (acc ++ [t]) r
        | none => none
      else none

/-- Model of `serde_json::from_str::<Vec<Task>>`: a JSON array of task
objects, with nothing but whitespace after it. -/
def jsonParseTasks (s : String) : Option (List Task) :=
  match skipWs s.data with
  | [] => none
  | c :: cs =>
    if c = '[' then
      match skipWs cs with
      | [] => none
      | c2 :: cs2 =>
        if c2 = ']' then
          match skipWs cs2 with
          | [] => some []
          | _ :: _ => none
        else
          match parseTask (c2 :: cs2) with
          | some (t, r) => parseTasksAux (r.length + 1) [t] r
          | none => none
    else none

/-! ## The task store (impl Todo in main.rs) -/

/-- Model of `Todo::new()`. -/
def Todo.new : Todo :=
  { tasks := [], new_task_text := "", mode := Mode.Normal, current_task := 0 }

/-- Model of `Todo::save`: serialize the tasks and overwrite the db file. -/
def Todo.save (t : Todo) : FS := some (jsonEncodeTasks t.tasks)

/-- Model of `Todo::insert`: push a new task at the end (`tasks.insert(tasks.len(), ..)`),
point the selection at it, and save. -/
def Todo.insert (t : Todo) (text : String) (_fs : FS) : Todo × FS :=
  let t1 : Todo := { t with tasks := t.tasks ++ [Task.new text] }
  let t2 : Todo := { t1 with current_task := t1.tasks.length - 1 }
  (t2, t2.save)

/-- Model of `Todo::toggle`: flip `completed` on the selected task if there is one,
then save. -/
def Todo.toggle (t : Todo) (_fs : FS) : Todo × FS :=
  let t1 : Todo :=
    match t.tasks.get? t.current_task with
    | some task =>
      { t with tasks := t.tasks.set t.current_task { task with completed := !task.completed } }
    | none => t
  (t1, t1.save)

/-- Model of `Todo::delete`: early-return on an empty store (no save); otherwise
`tasks.remove(current_task)` and clamp the selection down by one, then save.
`Vec::remove` panics when the index is out of bounds; `List.eraseIdx` is
used here, and every theorem below only invokes `delete` on the empty store
or under the in-bounds invariant, where the two agree. -/
def Todo.delete (t : Todo) (fs : FS) : Todo × FS :=
  if t.tasks.isEmpty then (t, fs)
  else
    let t1 : Todo :=
      { t with
        tasks := t.tasks.eraseIdx t.current_task,
        current_task := if t.current_task > 0 then t.current_task - 1 else 0 }
    (t1, t1.save)

/-- Model of `Todo::prev`: move the selection up unless already at 0.  No save. -/
def Todo.prev (t : Todo) : Todo :=
  if t.current_task > 0 then { t with current_task := t.current_task - 1 } else t

/-- Model of `Todo::next`: `if current_task < tasks.len() - 1` in `usize` arithmetic —
on an empty store `tasks.len() - 1` underflows (panic in a debug build,
wrap to `2 ^ 64 - 1` in release), modelled here by the release wrapping.
No save. -/
def Todo.next (t : Todo) : Todo :=
  if t.current_task < (t.tasks.length + (USIZE - 1)) % USIZE then
    { t with current_task := (t.current_task + 1) % USIZE }
  else t

/-- The two ways `Todo::load` fails: the file is missing
(`fs::read_to_string` errors) or its contents are not valid JSON for
`Vec<Task>` (`serde_json::from_str` errors). -/
inductive LoadError
  | notFound
  | parseError
  deriving DecidableEq, Repr

/-- Model of `Todo::load`: read the db file and parse it; the UI fields are always
reset to their defaults, never restored from disk. -/
def Todo.load (fs : FS) : Except LoadError Todo :=
  match fs with
  | none => Except.error LoadError.notFound
  | some data =>
    match jsonParseTasks data with
    | some ts =>
      Except.ok { tasks := ts, new_task_text := "", mode := Mode.Normal, current_task := 0 }
    | none => Except.error LoadError.parseError

/-- The start of `main()`: `match Todo::load() with Ok(todo) => todo,
Err(_) => Todo::new()` — every load error falls back to a fresh store. -/
def startup (fs : FS) : Todo :=
  match Todo.load fs with
  | Except.ok t => t
  | Except.error _ => Todo.new

/-! ## The input mode machine (handle_input / handle_insert_mode) -/

/-- The crossterm key codes the program distinguishes. -/
inductive KeyCode
  | Char (c : Char)
  | Esc
  | Enter
  | Backspace
  | Up
  | Down
  | Other
  deriving DecidableEq, Repr

/-- Model of `handle_insert_mode`: printable characters extend the scratch text,
Backspace pops, Enter commits via `insert` (mode set to Normal first, the
scratch cleared after), Escape discards. -/
def handle_insert_mode (k : KeyCode) (t : Todo) (fs : FS) : Todo × FS :=
  match k with
  | KeyCode.Char c => ({ t with new_task_text := t.new_task_text.push c }, fs)
  | KeyCode.Backspace =>
    ({ t with new_task_text := String.mk t.new_task_text.data.dropLast }, fs)
  | KeyCode.Enter =>
    let t1 : Todo := { t with mode := Mode.Normal }
    let r := Todo.insert t1 t.new_task_text fs
    ({ r.1 with new_task_text := "" }, r.2)
  | KeyCode.Esc => ({ t with mode := Mode.Normal, new_task_text := "" }, fs)
  | _ => (t, fs)

/-- One key press dispatched by `handle_input`.  The Bool is the quit
signal (`Err("Quitting")` on `q` in Normal mode).  Insert mode takes
priority, then Delete mode (second `d` confirms, Escape cancels, anything
else is ignored), then the Normal-mode bindings. -/
def handle_input (t : Todo) (fs : FS) (k : KeyCode) : Todo × FS × Bool :=
  if t.mode = Mode.Insert then
    let r := handle_insert_mode k t fs
    (r.1, r.2, false)
  else if t.mode = Mode.Delete then
    match k with
    | KeyCode.Char c =>
      if c = 'd' then
        let r := t.delete fs
        ({ r.1 with mode := Mode.Normal }, r.2, false)
      else (t, fs, false)
    | KeyCode.Esc => ({ t with mode := Mode.Normal }, fs, false)
    | _ => (t, fs, false)
  else
    match k with
    | KeyCode.Char c =>
      if c = 'i' ∨ c = 'o' ∨ c = 'a' then
        ({ t with new_task_text := "", mode := Mode.Insert }, fs, false)
      else if c = 'q' then (t, fs, true)
      else if c = 'k' then (t.prev, fs, false)
      else if c = 'j' then (t.next, fs, false)
      else if c = ' ' then
        let r := t.toggle fs
        (r.1, r.2, false)
      else if c = 'd' then
        if t.mode = Mode.Normal then ({ t with mode := Mode.Delete }, fs, false)
        else (t, fs, false)
      else (t, fs, false)
    | KeyCode.Up => (t.prev, fs, false)
    | KeyCode.Down => (t.next, fs, false)
    | KeyCode.Enter =>
      let r := t.toggle fs
      (r.1, r.2, false)
    | _ => (t, fs, false)

/-- A sequence of key presses through the `run` loop (which stops at the
quit signal). -/
def runKeys : Todo → FS → List KeyCode → Todo × FS
  | t, fs, [] => (t, fs)
  | t, fs, k :: ks =>
    let r := handle_input t fs k
    if r.2.2 then (r.1, r.2.1) else runKeys r.1 r.2.1 ks

/-! ## Round trip of the JSON model -/

/-- Digit inversion: `parseHexDigit` inverts `hexDigitChar` on a single hex digit. -/
theorem parseHexDigit_hexDigitChar : ∀ n, n < 16 → parseHexDigit (hexDigitChar n) = some n := by
  decide

/-- The string parser inverts serde_json's escaping: with enough fuel,
parsing an escaped body followed by the closing quote returns the
original characters. -/
theorem parseStringBody_escapeList (l rest : List Char) :
    ∀ fuel, l.length < fuel →
      parseStringBody fuel (escapeList l ++ '\"' :: rest) = some (l, rest) := by
  induction l with
  | nil =>
    intro fuel h
    cases fuel with
    | zero => omega
    | succ f => simp [escapeList, parseStringBody]
  | cons c cs ih =>
    intro fuel h
    cases fuel with
    | zero => omega
    | succ f =>
      have hf : cs.length < f := by
        simp only [List.length_cons] at h
        omega
      rw [escapeList]
      unfold escapeChar
      by_cases h1 : c = '\"'
      · subst h1
        simp [parseStringBody, parseEscape, ih f hf]
      · rw [if_neg h1]
        by_cases h2 : c = '\\'
        · subst h2
          simp [parseStringBody, parseEscape, ih f hf]
        · rw [if_neg h2]
          by_cases h3 : c = '\x08'
          · subst h3
            simp [parseStringBody, parseEscape, ih f hf]
          · rw [if_neg h3]
            by_cases h4 : c = '\t'
            · subst h4
              simp [parseStringBody, parseEscape, ih f hf]
            · rw [if_neg h4]
              by_cases h5 : c = '\n'
              · subst h5
                simp [parseStringBody, parseEscape, ih f hf]
              · rw [if_neg h5]
                by_cases h6 : c = '\x0c'
                · subst h6
                  simp [parseStringBody, parseEscape, ih f hf]
                · rw [if_neg h6]
                  by_cases h7 : c = '\r'
                  · subst h7
                    simp [parseStringBody, parseEscape, ih f hf]
                  · rw [if_neg h7]
                    by_cases h8 : c.toNat < 32
                    · rw [if_pos h8]
                      have hdiv := parseHexDigit_hexDigitChar (c.toNat / 16) (by omega)
                      have hmod := parseHexDigit_hexDigitChar (c.toNat % 16) (by omega)
                      have h00 : parseHexDigit '0' = some 0 := by decide
                      have hh : hex4 '0' '0' (hexDigitChar (c.toNat / 16))
                          (hexDigitChar (c.toNat % 16)) = some c.toNat := by
                        simp only [hex4, h00, hdiv, hmod, Option.some.injEq]
                        omega
                      have hlt : c.toNat < 55296 ∨ 57344 ≤ c.toNat := by omega
                      simp [parseStringBody, parseEscape, parseUnicode, hh, hlt,
                        Char.ofNat_toNat, ih f hf]
                    · rw [if_neg h8]
                      simp [parseStringBody, h1, h2, h8, ih f hf]

/-- Escaping a character never produces the empty list. -/
theorem escapeChar_length_pos (c : Char) : 1 ≤ (escapeChar c).length := by
  unfold escapeChar
  split_ifs <;> simp

/-- Escaping can only grow a string. -/
theorem escapeList_length_ge (l : List Char) : l.length ≤ (escapeList l).length := by
  induction l with
  | nil => simp [escapeList]
  | cons c cs ih =>
    rw [escapeList]
    have := escapeChar_length_pos c
    simp only [List.length_append, List.length_cons]
    omega

/-- The fuel chosen by `parseString` is always enough for an escaped body. -/
theorem parseString_escapeList (s tail : List Char) :
    parseString (escapeList s ++ '\"' :: tail) = some (s, tail) := by
  unfold parseString
  apply parseStringBody_escapeList
  have := escapeList_length_ge s
  simp only [List.length_append, List.length_cons]
  omega

/-- Parsing the literal object key `text`. -/
theorem parseString_key_text (r : List Char) :
    parseString ('t' :: 'e' :: 'x' :: 't' :: '\"' :: r) = some (['t', 'e', 'x', 't'], r) := by
  have h := parseStringBody_escapeList ['t', 'e', 'x', 't'] r
    (('t' :: 'e' :: 'x' :: 't' :: '\"' :: r).length + 1) (by simp)
  exact h

/-- Parsing the literal object key `completed`. -/
theorem parseString_key_completed (r : List Char) :
    parseString ('c' :: 'o' :: 'm' :: 'p' :: 'l' :: 'e' :: 't' :: 'e' :: 'd' :: '\"' :: r) =
      some (['c', 'o', 'm', 'p', 'l', 'e', 't', 'e', 'd'], r) := by
  have h := parseStringBody_escapeList ['c', 'o', 'm', 'p', 'l', 'e', 't', 'e', 'd'] r
    (('c' :: 'o' :: 'm' :: 'p' :: 'l' :: 'e' :: 't' :: 'e' :: 'd' :: '\"' :: r).length + 1)
    (by simp)
  exact h

/-- The field parser inverts the encoder on the `text` field. -/
theorem parseField_text (s tail : List Char) :
    parseField ('\"' :: 't' :: 'e' :: 'x' :: 't' :: '\"' :: ':' :: '\"' ::
        (escapeList s ++ '\"' :: tail)) = some (FieldVal.text s, tail) := by
  simp [parseField, skipWs, isJsonWs, parseString_key_text, parseString_escapeList]

/-- The field parser inverts the encoder on the `completed` field. -/
theorem parseField_completed (b : Bool) (tail : List Char) :
    parseField ('\"' :: 'c' :: 'o' :: 'm' :: 'p' :: 'l' :: 'e' :: 't' :: 'e' :: 'd' :: '\"' ::
        ':' ::
        ((if b then 't' :: 'r' :: 'u' :: 'e' :: [] else 'f' :: 'a' :: 'l' :: 's' :: 'e' :: []) ++
          tail)) = some (FieldVal.completed b, tail) := by
  cases b <;>
    simp [parseField, skipWs, isJsonWs, parseString_key_completed, expectLit]

/-- The task parser inverts the task encoder. -/
theorem parseTask_encodeTask (t : Task) (rest : List Char) :
    parseTask (encodeTask t ++ rest) = some (t, rest) := by
  obtain ⟨⟨sd⟩, b⟩ := t
  simp only [encodeTask, encodeString, List.cons_append, List.append_assoc, List.nil_append,
    List.singleton_append]
  simp [parseTask, skipWs, isJsonWs, parseField_text, parseField_completed, mkTask]

/-- Each array element costs at least its separating comma. -/
theorem encodeSep_length_ge (ts : List Task) : ts.length ≤ (encodeSep ts).length := by
  induction ts with
  | nil => simp [encodeSep]
  | cons t ts ih =>
    rw [encodeSep]
    simp only [List.length_cons, List.length_append]
    omega

/-- The array-tail parser inverts the `,`-separated encoder, for any fuel
above the number of elements. -/
theorem parseTasksAux_encodeSep (ts : List Task) :
    ∀ (acc : List Task) (fuel : Nat), ts.length < fuel →
      parseTasksAux fuel acc (encodeSep ts ++ [']']) = some (acc ++ ts) := by
  induction ts with
  | nil =>
    intro acc fuel h
    cases fuel with
    | zero => omega
    | succ f => simp [encodeSep, parseTasksAux, skipWs, isJsonWs]
  | cons t ts ih =>
    intro acc fuel h
    cases fuel with
    | zero => omega
    | succ f =>
      have hf : ts.length < f := by
        simp only [List.length_cons] at h
        omega
      rw [encodeSep]
      simp only [List.cons_append, List.append_assoc]
      have hpt := parseTask_encodeTask t (encodeSep ts ++ [']'])
      simp [parseTasksAux, skipWs, isJsonWs, hpt, ih (acc ++ [t]) f hf]

/-- The parser inverts the encoder: loading exactly what was saved
reproduces the task sequence. -/
theorem jsonParseTasks_jsonEncodeTasks (ts : List Task) :
    jsonParseTasks (jsonEncodeTasks ts) = some ts := by
  cases ts with
  | nil => rfl
  | cons t ts' =>
    unfold jsonEncodeTasks jsonParseTasks
    rw [encodeItems]
    obtain ⟨l, hl⟩ : ∃ l, encodeTask t = '\x7b' :: l := by
      obtain ⟨s, b⟩ := t
      exact ⟨_, rfl⟩
    have hpt := parseTask_encodeTask t (encodeSep ts' ++ [']'])
    have haux := parseTasksAux_encodeSep ts' [t] ((encodeSep ts').length + 1 + 1)
      (by
        have := encodeSep_length_ge ts'
        omega)
    rw [hl, List.cons_append] at hpt
    simp [skipWs, isJsonWs, hl, hpt, haux, List.append_assoc]

/-! ## Claims about navigation and the store operations -/

/-- Claim C1 (code bug in `Todo::next`): on the empty store `next()` is not
a no-op.  The guard `current_task < tasks.len() - 1` computes `0 - 1` in
`usize`: a debug build panics on the underflow, and under release wrapping
(modelled here) the guard holds, so one `next()` moves `current_task` from
0 to 1 — outside the claimed `[0, len(tasks)-1]` convention for the empty
store. -/
theorem C1_next_on_empty_store_moves :
    Todo.new.tasks = [] ∧ Todo.new.current_task = 0 ∧
      (Todo.next Todo.new).current_task = 1 := by
  refine ⟨rfl, rfl, ?_⟩
  decide

/-- Claim C3: `insert(text)` appends a task with the given text and
`completed = false` at the end, grows the store by exactly one, and leaves
the selection on the new last element. -/
theorem C3_insert_appends (t : Todo) (text : String) (fs : FS) :
    (t.insert text fs).1.tasks = t.tasks ++ [{ text := text, completed := false }] ∧
      (t.insert text fs).1.tasks.length = t.tasks.length + 1 ∧
      (t.insert text fs).1.current_task = (t.insert text fs).1.tasks.length - 1 := by
  refine ⟨rfl, ?_, rfl⟩
  simp [Todo.insert]

/-- Claim C4: `delete()` is a no-op (including on the file) on the empty
store; on a store satisfying the selection invariant it removes exactly
the task at `current_task`, clamps the selection to `current_task - 1`
(i.e. `max(0, current_task - 1)`), and afterwards the selection is in
bounds unless the store became empty. -/
theorem C4_delete_clamps (t : Todo) (fs : FS) :
    (t.tasks = [] → t.delete fs = (t, fs)) ∧
    (t.current_task < t.tasks.length →
      (t.delete fs).1.tasks =
        t.tasks.take t.current_task ++ t.tasks.drop (t.current_task + 1) ∧
      (t.delete fs).1.current_task = t.current_task - 1 ∧
      ((t.delete fs).1.tasks = [] ∨
        (t.delete fs).1.current_task < (t.delete fs).1.tasks.length)) := by
  constructor
  · intro h
    simp [Todo.delete, h]
  · intro h
    have hne : t.tasks.isEmpty = false := by
      cases ht : t.tasks
      · rw [ht] at h; simp at h
      · rfl
    have hd : (t.delete fs).1 =
        { t with
          tasks := t.tasks.eraseIdx t.current_task,
          current_task := if t.current_task > 0 then t.current_task - 1 else 0 } := by
      simp [Todo.delete, hne]
    have hci : (t.delete fs).1.current_task = t.current_task - 1 := by
      rw [hd]
      rcases Nat.eq_zero_or_pos t.current_task with h0 | h0 <;> simp [h0]
    have hlen : (t.delete fs).1.tasks.length = t.tasks.length - 1 := by
      rw [hd]
      simp only [List.length_eraseIdx]
      simp [h]
    refine ⟨?_, hci, ?_⟩
    · rw [hd]
      simp [List.eraseIdx_eq_take_drop_succ]
    · rcases Nat.lt_or_ge t.tasks.length 2 with h2 | h2
      · left
        rw [← List.length_eq_zero]
        omega
      · right
        omega

/-- Claim C7: `prev()`/`next()` are pure navigation: they change only
`current_task` (tasks, scratch text and mode are untouched), and on the
navigation keys (`k`, `j`, Up, Down) in Normal mode `handle_input`
performs exactly that move and leaves the persisted file unchanged. -/
theorem C7_navigation_pure (t : Todo) (fs : FS) :
    (t.prev.tasks = t.tasks ∧ t.prev.new_task_text = t.new_task_text ∧
      t.prev.mode = t.mode) ∧
    (t.next.tasks = t.tasks ∧ t.next.new_task_text = t.new_task_text ∧
      t.next.mode = t.mode) ∧
    (t.mode = Mode.Normal →
      handle_input t fs KeyCode.Up = (t.prev, fs, false) ∧
      handle_input t fs KeyCode.Down = (t.next, fs, false) ∧
      handle_input t fs (KeyCode.Char 'k') = (t.prev, fs, false) ∧
      handle_input t fs (KeyCode.Char 'j') = (t.next, fs, false)) := by
  refine ⟨?_, ?_, ?_⟩
  · unfold Todo.prev
    split <;> simp
  · unfold Todo.next
    split <;> simp
  · intro h
    refine ⟨?_, ?_, ?_, ?_⟩ <;> simp [handle_input, h]

/-- Witness for C7 at the fresh store. -/
theorem C7_navigation_pure_witness :
    Todo.new.prev.tasks = Todo.new.tasks ∧
      handle_input Todo.new none KeyCode.Up = (Todo.new.prev, none, false) ∧
      handle_input Todo.new none (KeyCode.Char 'j') = (Todo.new.next, none, false) := by
  have h := C7_navigation_pure Todo.new none
  exact ⟨h.1.1, (h.2.2 rfl).1, (h.2.2 rfl).2.2.2⟩

/-- Witness for C4 on a two-task store with the second task selected, and
on the empty store. -/
theorem C4_delete_clamps_witness :
    (({ tasks := [Task.new "a", Task.new "b"], new_task_text := "", mode := Mode.Normal,
        current_task := 1 } : Todo).delete none).1.tasks = [Task.new "a"] ∧
      Todo.new.delete none = (Todo.new, none) := by
  constructor
  · have h := (C4_delete_clamps
      { tasks := [Task.new "a", Task.new "b"], new_task_text := "", mode := Mode.Normal,
        current_task := 1 } none).2 (by decide)
    exact h.1
  · exact (C4_delete_clamps Todo.new none).1 rfl

/-! ## Claims about the input mode machine -/

/-- Claim C8: from Normal mode, `i` then the characters of "abc" then
Enter appends exactly one task with text "abc" and returns to Normal;
with Escape in place of Enter the scratch text is discarded, no task is
created, and the mode returns to Normal. -/
theorem C8_insert_mode_flow (t : Todo) (fs : FS) (h : t.mode = Mode.Normal) :
    ((runKeys t fs [KeyCode.Char 'i', KeyCode.Char 'a', KeyCode.Char 'b', KeyCode.Char 'c',
        KeyCode.Enter]).1.tasks = t.tasks ++ [{ text := "abc", completed := false }] ∧
      (runKeys t fs [KeyCode.Char 'i', KeyCode.Char 'a', KeyCode.Char 'b', KeyCode.Char 'c',
        KeyCode.Enter]).1.mode = Mode.Normal) ∧
    ((runKeys t fs [KeyCode.Char 'i', KeyCode.Char 'a', KeyCode.Char 'b', KeyCode.Char 'c',
        KeyCode.Esc]).1.tasks = t.tasks ∧
      (runKeys t fs [KeyCode.Char 'i', KeyCode.Char 'a', KeyCode.Char 'b', KeyCode.Char 'c',
        KeyCode.Esc]).1.mode = Mode.Normal ∧
      (runKeys t fs [KeyCode.Char 'i', KeyCode.Char 'a', KeyCode.Char 'b', KeyCode.Char 'c',
        KeyCode.Esc]).1.new_task_text = "") := by
  have habc : ((("" : String).push 'a').push 'b').push 'c' = "abc" := rfl
  simp [runKeys, handle_input, handle_insert_mode, h, Todo.insert, Task.new, habc]

/-- Witness for C8 at the fresh store. -/
theorem C8_insert_mode_flow_witness :
    ((runKeys Todo.new none [KeyCode.Char 'i', KeyCode.Char 'a', KeyCode.Char 'b',
        KeyCode.Char 'c', KeyCode.Enter]).1.tasks =
        Todo.new.tasks ++ [{ text := "abc", completed := false }] ∧
      (runKeys Todo.new none [KeyCode.Char 'i', KeyCode.Char 'a', KeyCode.Char 'b',
        KeyCode.Char 'c', KeyCode.Enter]).1.mode = Mode.Normal) ∧
    ((runKeys Todo.new none [KeyCode.Char 'i', KeyCode.Char 'a', KeyCode.Char 'b',
        KeyCode.Char 'c', KeyCode.Esc]).1.tasks = Todo.new.tasks ∧
      (runKeys Todo.new none [KeyCode.Char 'i', KeyCode.Char 'a', KeyCode.Char 'b',
        KeyCode.Char 'c', KeyCode.Esc]).1.mode = Mode.Normal ∧
      (runKeys Todo.new none [KeyCode.Char 'i', KeyCode.Char 'a', KeyCode.Char 'b',
        KeyCode.Char 'c', KeyCode.Esc]).1.new_task_text = "") :=
  C8_insert_mode_flow Todo.new none rfl

/-- Counterexample to claim C9 as stated: on the empty store, pressing `d`
twice from Normal mode removes no task at all (delete is a no-op there),
not "exactly one task". -/
theorem C9_counterexample :
    ¬ (Todo.new.tasks.length =
        (runKeys Todo.new none [KeyCode.Char 'd', KeyCode.Char 'd']).1.tasks.length + 1) := by
  decide

/-- Claim C9 amended: from Normal mode, `d` followed by any key other than
`d` or Escape leaves the task sequence unchanged and the mode still
Delete; `d` twice returns the mode to Normal and removes exactly one task
when the selection is in bounds (in particular the store is non-empty),
while on the empty store it removes nothing. -/
theorem C9_delete_confirmation (t : Todo) (fs : FS) (k : KeyCode)
    (h : t.mode = Mode.Normal) :
    (k ≠ KeyCode.Char 'd' → k ≠ KeyCode.Esc →
      (runKeys t fs [KeyCode.Char 'd', k]).1.tasks = t.tasks ∧
      (runKeys t fs [KeyCode.Char 'd', k]).1.mode = Mode.Delete) ∧
    ((runKeys t fs [KeyCode.Char 'd', KeyCode.Char 'd']).1.mode = Mode.Normal ∧
      (t.current_task < t.tasks.length →
        t.tasks.length =
          (runKeys t fs [KeyCode.Char 'd', KeyCode.Char 'd']).1.tasks.length + 1) ∧
      (t.tasks = [] →
        (runKeys t fs [KeyCode.Char 'd', KeyCode.Char 'd']).1.tasks = t.tasks)) := by
  constructor
  · intro hkd hke
    cases k with
    | Char c =>
      have hcd : ¬ c = 'd' := by
        intro hc
        exact hkd (by rw [hc])
      simp [runKeys, handle_input, h, hcd]
    | Esc => exact absurd rfl hke
    | Enter => simp [runKeys, handle_input, h]
    | Backspace => simp [runKeys, handle_input, h]
    | Up => simp [runKeys, handle_input, h]
    | Down => simp [runKeys, handle_input, h]
    | Other => simp [runKeys, handle_input, h]
  · refine ⟨?_, ?_, ?_⟩
    · by_cases he : t.tasks.isEmpty <;>
        simp [runKeys, handle_input, h, Todo.delete, he]
    · intro hc
      have hne : t.tasks.isEmpty = false := by
        cases ht : t.tasks
        · rw [ht] at hc; simp at hc
        · rfl
      simp [runKeys, handle_input, h, Todo.delete, hne, List.length_eraseIdx, hc]
      omega
    · intro he
      simp [runKeys, handle_input, h, Todo.delete, he]

/-- A one-task store used by the C9 witness. -/
def todoOneA : Todo :=
  { tasks := [Task.new "a"], new_task_text := "", mode := Mode.Normal, current_task := 0 }

/-- Witness for C9 on a one-task store (with `x` as the other key) and the
in-bounds deletion count. -/
theorem C9_delete_confirmation_witness :
    ((runKeys todoOneA none [KeyCode.Char 'd', KeyCode.Char 'x']).1.tasks =
        todoOneA.tasks ∧
      (runKeys todoOneA none [KeyCode.Char 'd', KeyCode.Char 'x']).1.mode =
        Mode.Delete) ∧
    todoOneA.tasks.length =
      (runKeys todoOneA none [KeyCode.Char 'd', KeyCode.Char 'd']).1.tasks.length + 1 := by
  have h := C9_delete_confirmation todoOneA none (KeyCode.Char 'x') rfl
  exact ⟨h.1 (by decide) (by decide), h.2.2.1 (by decide)⟩

/-! ## Claims about persistence and startup -/

/-- Counterexample to claim C2 as stated: a malformed persisted file (here
the single character `\x7b`) is not fatal — `Todo::load` does fail with a
parse error (not file-not-found), but `main` recovers every load error
with `Todo::new()`, so startup proceeds with the empty store instead of
aborting. -/
theorem C2_counterexample :
    Todo.load (some "\x7b") = Except.error LoadError.parseError ∧
      startup (some "\x7b") = Todo.new := by
  constructor <;> rfl

/-- Claim C2 amended: on load, file-not-found is not the only recovered
error — every load error, in particular malformed JSON in the persisted
file, is recovered by starting from the fresh empty store; no load error
aborts startup. -/
theorem C2_load_errors_recovered (fs : FS) (e : LoadError)
    (h : Todo.load fs = Except.error e) : startup fs = Todo.new := by
  unfold startup
  rw [h]

/-- Witness for C2 at a missing file and at a malformed file. -/
theorem C2_load_errors_recovered_witness :
    startup none = Todo.new ∧ startup (some "not json") = Todo.new :=
  ⟨C2_load_errors_recovered none LoadError.notFound rfl,
    C2_load_errors_recovered (some "not json") LoadError.parseError rfl⟩

/-- Claim C5: saving any store and then loading yields exactly the saved
task sequence — same length, same order, same text and completion flag at
every position (the loaded store's UI fields take their defaults). -/
theorem C5_save_load_round_trip (t : Todo) :
    Todo.load t.save =
      Except.ok
        { tasks := t.tasks, new_task_text := "", mode := Mode.Normal,
          current_task := 0 } := by
  unfold Todo.save Todo.load
  simp [jsonParseTasks_jsonEncodeTasks]

/-- Claim C6: when the persisted file does not exist, startup yields the
empty store (no tasks, selection 0) — inside `Todo::load` the missing file
is an error, but `main` recovers it, so the first run is never fatal. -/
theorem C6_first_run_empty_store :
    startup none = Todo.new ∧ (startup none).tasks = [] ∧
      (startup none).current_task = 0 := by
  refine ⟨rfl, rfl, rfl⟩

/-- Claim C10: whenever `Todo::load` succeeds, the returned store has
selection 0, mode Normal and empty scratch text, whatever the persisted
task sequence was: UI state is never restored from disk. -/
theorem C10_load_resets_ui (fs : FS) (t : Todo) (h : Todo.load fs = Except.ok t) :
    t.current_task = 0 ∧ t.mode = Mode.Normal ∧ t.new_task_text = "" := by
  cases fs with
  | none => exact absurd h (by simp [Todo.load])
  | some data =>
    simp only [Todo.load] at h
    cases hp : jsonParseTasks data with
    | none => rw [hp] at h; exact absurd h (by simp)
    | some ts =>
      rw [hp] at h
      cases h
      exact ⟨rfl, rfl, rfl⟩

/-- Witness for C10 on the persisted file `[]`. -/
theorem C10_load_resets_ui_witness :
    Todo.new.current_task = 0 ∧ Todo.new.mode = Mode.Normal ∧
      Todo.new.new_task_text = "" :=
  C10_load_resets_ui (some "[]") Todo.new rfl

end Taskt
